import Mathlib

/-!
Verification development for the placeholder-icon generator
`src-tauri/icons/create_icons.py`.

The script is embedded shallowly:

* a `Color` is an RGBA quadruple of naturals;
* an `Img` is a width, a height, and a pixel function (the decoded raster);
* the imaging primitives (`Image.new`, `ImageDraw.ellipse`) are modelled at
  the pixel level; the ellipse rasterisation follows the specification,
  section 4.1: an inclusive bounding box, a solid fill, and a boundary
  stroke one pixel wide, with no anti-aliasing;
* PNG encoding and decoding are lossless for RGBA rasters, so the file
  system is modelled as an association list from file names to decoded
  images; `img.save` overwrites in place or appends, `Image.open` looks a
  name up and fails when it is absent;
* the run of the script is a pure function from an initial state to a
  final state (file system, ordered write log, stdout text) together with
  an optional fatal error.
-/

/-- An RGBA color, one natural number (0..255 in practice) per channel. -/
structure Color where
  r : Nat
  g : Nat
  b : Nat
  a : Nat
deriving DecidableEq

/-- A decoded raster image: dimensions plus a pixel function. -/
structure Img where
  width : Nat
  height : Nat
  pix : Nat → Nat → Color

/-- The fully transparent black used to initialise every canvas:
`Image.new('RGBA', (width, height), (0, 0, 0, 0))`. -/
def transparent : Color := ⟨0, 0, 0, 0⟩

/-- Fill color of the circle: `(70, 130, 180, 255)`. -/
def fillColor : Color := ⟨70, 130, 180, 255⟩

/-- Outline color of the circle: `(25, 25, 112, 255)`. -/
def outlineColor : Color := ⟨25, 25, 112, 255⟩

/-- `Image.new('RGBA', (w, h), c)`: a canvas with every pixel set to `c`. -/
def imageNew (w h : Nat) (c : Color) : Img := ⟨w, h, fun _ _ => c⟩

/-- Modelled from the spec: membership of the point `(x, y)` in the solid
ellipse whose inclusive bounding box is `[x0, y0, x1, y1]`.  The test is the
standard ellipse inequality, cleared of denominators so that it stays in
integer arithmetic: with center `((x0+x1)/2, (y0+y1)/2)` and semi-axes
`(x1-x0)/2` and `(y1-y0)/2`, the point is inside when
`((2x - (x0+x1)) * (y1-y0))^2-style` weighted sum is at most the product of
the squared axis spans.  Both bounding-box endpoints are inclusive. -/
def inEllipseB (x0 y0 x1 y1 x y : Int) : Bool :=
  decide ((2 * x - (x0 + x1)) * (2 * x - (x0 + x1)) * ((y1 - y0) * (y1 - y0))
      + (2 * y - (y0 + y1)) * (2 * y - (y0 + y1)) * ((x1 - x0) * (x1 - x0))
      ≤ (x1 - x0) * (x1 - x0) * ((y1 - y0) * (y1 - y0)))

/-- Modelled from the spec: `draw.ellipse([x0, y0, x1, y1], fill, outline)`
of PIL's `ImageDraw`, per specification section 4.1: pixels of the solid
ellipse with inclusive bounding box `[x0, y0, x1, y1]` receive the fill
color, except that the boundary ring — inside the ellipse but outside the
ellipse shrunk by one pixel on every side, a one-pixel stroke — receives
the outline color; every other pixel keeps its previous color.  The edge is
hard: no anti-aliasing, no blending. -/
def drawEllipse (img : Img) (x0 y0 x1 y1 : Int) (fill outline : Color) : Img :=
  { img with
    pix := fun x y =>
      if inEllipseB x0 y0 x1 y1 (Int.ofNat x) (Int.ofNat y) then
        if inEllipseB (x0 + 1) (y0 + 1) (x1 - 1) (y1 - 1) (Int.ofNat x) (Int.ofNat y) then
          fill
        else
          outline
      else
        img.pix x y }

/-- The hardcoded size list of the script: `icon_sizes = [(32, 32), (128, 128)]`. -/
def icon_sizes : List (Nat × Nat) := [(32, 32), (128, 128)]

/-- The fixed margin: `margin = 4`. -/
def margin : Nat := 4

/-- The loop body's image: a transparent canvas of the given size with the
blue circle drawn into it,
`draw.ellipse([margin, margin, width-margin, height-margin], fill, outline)`. -/
def makeIcon (w h : Nat) : Img :=
  drawEllipse (imageNew w h transparent)
    (Int.ofNat margin) (Int.ofNat margin)
    (Int.ofNat w - Int.ofNat margin) (Int.ofNat h - Int.ofNat margin)
    fillColor outlineColor

/-- The file name the loop saves to: the f-string `f'{width}x{height}.png'`,
with the two integers rendered in decimal. -/
def sizeFileName (w h : Nat) : String :=
  toString w ++ "x" ++ toString h ++ ".png"

/-- The literal file name `'128x128.png'` opened by the duplication step. -/
def src128Name : String := "128x128.png"

/-- The literal file name `'128x128@2x.png'` written by the duplication step. -/
def at2xName : String := "128x128@2x.png"

/-- The confirmation message passed to `print`. -/
def doneMsg : String := "Created placeholder icons"

/-- The working directory, as an association list from file names to the
decoded pixel content of the stored PNG (PNG round-trips RGBA rasters
losslessly, so only the decoded image matters). -/
abbrev FS := List (String × Img)

/-- `Image.open(name)`: the decoded content of the named file, or `none`
when no such file exists (PIL raises `FileNotFoundError`). -/
def openFile : FS → String → Option Img
  | [], _ => none
  | (n, i) :: rest, name => if n = name then some i else openFile rest name

/-- `img.save(name)`: overwrite the named file in place when it exists,
otherwise create it. -/
def saveFile : FS → String → Img → FS
  | [], name, img => [(name, img)]
  | (n, i) :: rest, name, img =>
    if n = name then (name, img) :: rest else (n, i) :: saveFile rest name img

/-- Observable state of a run: the working directory, the ordered log of
file names written, and the text printed to stdout. -/
structure RunState where
  fs : FS
  writeLog : List String
  out : String

/-- A fresh working directory, nothing written, nothing printed. -/
def initState : RunState := ⟨[], [], ""⟩

/-- The only fatal error the embedding distinguishes: `Image.open` on a
missing file. -/
inductive RunError where
  | fileNotFound (name : String)
deriving DecidableEq

/-- One iteration of the `for width, height in icon_sizes` loop: build the
icon and save it under `f'{width}x{height}.png'`. -/
def saveIcon (st : RunState) (p : Nat × Nat) : RunState :=
  { st with
    fs := saveFile st.fs (sizeFileName p.1 p.2) (makeIcon p.1 p.2)
    writeLog := st.writeLog ++ [sizeFileName p.1 p.2] }

/-- The whole `for` loop, in sequence order. -/
def runLoop (sizes : List (Nat × Nat)) (st : RunState) : RunState :=
  sizes.foldl saveIcon st

/-- The script from top to bottom: the loop over `sizes`, then
`Image.open('128x128.png')` re-saved as `'128x128@2x.png'`, then
`print("Created placeholder icons")`.  Returns the final observable state
and `some` error when the duplication step fails (any later step is then
not reached); files already written remain written. -/
def runScript (sizes : List (Nat × Nat)) (st : RunState) : RunState × Option RunError :=
  let st1 := runLoop sizes st
  match openFile st1.fs src128Name with
  | none => (st1, some (RunError.fileNotFound src128Name))
  | some img =>
    let st2 : RunState :=
      { st1 with
        fs := saveFile st1.fs at2xName img
        writeLog := st1.writeLog ++ [at2xName] }
    ({ st2 with out := st2.out ++ doneMsg ++ "\n" }, none)

/-- The reference run: the hardcoded sizes, a fresh working directory. -/
def refRun : RunState × Option RunError := runScript icon_sizes initState

/-- A second invocation of the script in the directory left behind by the
reference run (stdout and the write log start fresh, the files persist). -/
def secondRun : RunState × Option RunError :=
  runScript icon_sizes ⟨refRun.1.fs, [], ""⟩

/-- Numeric value of a decimal digit character. -/
def chVal (c : Char) : Nat := c.toNat - 48

/-- Numeric value of a big-endian string of decimal digit characters. -/
def decValue (l : List Char) : Nat := l.foldl (fun a c => 10 * a + chVal c) 0

/-! Decimal rendering of naturals.  `toString` on `Nat` is `Nat.repr`, the
usual decimal representation; the lemmas below show that every character it
produces is a decimal digit and that it is injective, which is what makes
the file names `f'{width}x{height}.png'` of distinct size pairs distinct. -/

theorem toDigitsCore_append (b : Nat) :
    ∀ (fuel n : Nat) (ds : List Char),
      Nat.toDigitsCore b fuel n ds = Nat.toDigitsCore b fuel n [] ++ ds := by
  intro fuel
  induction fuel with
  | zero => intro n ds; simp [Nat.toDigitsCore]
  | succ f ih =>
    intro n ds
    simp only [Nat.toDigitsCore]
    by_cases h : n / b = 0
    · simp [h]
    · simp only [h, if_false]
      rw [ih (n / b) (Nat.digitChar (n % b) :: ds), ih (n / b) [Nat.digitChar (n % b)]]
      simp

theorem toDigitsCore_fuel (b : Nat) (hb : 1 < b) :
    ∀ n f1 f2, n < f1 → n < f2 →
      Nat.toDigitsCore b f1 n [] = Nat.toDigitsCore b f2 n [] := by
  intro n
  induction n using Nat.strong_induction_on with
  | _ n ih =>
    intro f1 f2 h1 h2
    obtain ⟨k1, rfl⟩ : ∃ k, f1 = k + 1 := ⟨f1 - 1, by omega⟩
    obtain ⟨k2, rfl⟩ : ∃ k, f2 = k + 1 := ⟨f2 - 1, by omega⟩
    simp only [Nat.toDigitsCore]
    by_cases h : n / b = 0
    · simp [h]
    · simp only [h, if_false]
      have hpos : 0 < n := by
        rcases Nat.eq_zero_or_pos n with h0 | h0
        · exact absurd (by simp [h0]) h
        · exact h0
      have hlt : n / b < n := Nat.div_lt_self hpos hb
      rw [toDigitsCore_append b k1 (n / b) [Nat.digitChar (n % b)],
        toDigitsCore_append b k2 (n / b) [Nat.digitChar (n % b)]]
      rw [ih (n / b) hlt k1 k2 (by omega) (by omega)]

theorem toDigits_lt_ten {n : Nat} (h : n < 10) :
    Nat.toDigits 10 n = [Nat.digitChar n] := by
  have h1 : n / 10 = 0 := by omega
  have h2 : n % 10 = n := by omega
  simp [Nat.toDigits, Nat.toDigitsCore, h1, h2]

theorem toDigits_ge_ten {n : Nat} (h : 10 ≤ n) :
    Nat.toDigits 10 n = Nat.toDigits 10 (n / 10) ++ [Nat.digitChar (n % 10)] := by
  have hd : ¬ (n / 10 = 0) := by omega
  have hlt : n / 10 < n := Nat.div_lt_self (by omega) (by omega)
  have step : Nat.toDigits 10 n
      = Nat.toDigitsCore 10 n (n / 10) [Nat.digitChar (n % 10)] := by
    simp only [Nat.toDigits, Nat.toDigitsCore, hd, if_false]
  rw [step, toDigitsCore_append 10 n (n / 10) [Nat.digitChar (n % 10)]]
  rw [toDigitsCore_fuel 10 (by omega) (n / 10) n (n / 10 + 1) hlt (by omega)]
  rfl

theorem digitChar_isDigit : ∀ k < 10, (Nat.digitChar k).isDigit = true := by decide

theorem toDigits_isDigit : ∀ n : Nat, ∀ c ∈ Nat.toDigits 10 n, c.isDigit = true := by
  intro n
  induction n using Nat.strong_induction_on with
  | _ n ih =>
    by_cases h : n < 10
    · rw [toDigits_lt_ten h]
      intro c hc
      rw [List.mem_singleton] at hc
      subst hc
      exact digitChar_isDigit n h
    · rw [toDigits_ge_ten (by omega)]
      intro c hc
      rcases List.mem_append.mp hc with h1 | h2
      · exact ih (n / 10) (Nat.div_lt_self (by omega) (by omega)) c h1
      · rw [List.mem_singleton] at h2
        subst h2
        exact digitChar_isDigit (n % 10) (by omega)

theorem chVal_digitChar : ∀ k < 10, chVal (Nat.digitChar k) = k := by decide

theorem decValue_toDigits : ∀ n : Nat, decValue (Nat.toDigits 10 n) = n := by
  intro n
  induction n using Nat.strong_induction_on with
  | _ n ih =>
    by_cases h : n < 10
    · rw [toDigits_lt_ten h]
      show 10 * 0 + chVal (Nat.digitChar n) = n
      rw [chVal_digitChar n h]
      omega
    · rw [toDigits_ge_ten (by omega)]
      show List.foldl (fun a c => 10 * a + chVal c) 0
          (Nat.toDigits 10 (n / 10) ++ [Nat.digitChar (n % 10)]) = n
      rw [List.foldl_append]
      show 10 * decValue (Nat.toDigits 10 (n / 10)) + chVal (Nat.digitChar (n % 10)) = n
      rw [ih (n / 10) (Nat.div_lt_self (by omega) (by omega)),
        chVal_digitChar (n % 10) (by omega)]
      omega

theorem nat_repr_inj {m n : Nat} (h : Nat.repr m = Nat.repr n) : m = n := by
  have hd : Nat.toDigits 10 m = Nat.toDigits 10 n := congrArg String.data h
  calc m = decValue (Nat.toDigits 10 m) := (decValue_toDigits m).symm
    _ = decValue (Nat.toDigits 10 n) := by rw [hd]
    _ = n := decValue_toDigits n

theorem repr_data_isDigit (n : Nat) : ∀ c ∈ (Nat.repr n).data, c.isDigit = true :=
  fun c hc => toDigits_isDigit n c hc

/-- Unique decomposition of a character list around an `'x'` separator whose
two left parts consist of decimal digits only. -/
theorem append_x_inj :
    ∀ (l1 : List Char) {l3 l2 l4 : List Char},
      (∀ c ∈ l1, c.isDigit = true) → (∀ c ∈ l3, c.isDigit = true) →
      l1 ++ 'x' :: l2 = l3 ++ 'x' :: l4 → l1 = l3 ∧ l2 = l4 := by
  intro l1
  induction l1 with
  | nil =>
    intro l3 l2 l4 _ h3 heq
    cases l3 with
    | nil =>
      simp only [List.nil_append, List.cons.injEq] at heq
      exact ⟨rfl, heq.2⟩
    | cons c t =>
      simp only [List.nil_append, List.cons_append, List.cons.injEq] at heq
      have hd := h3 c (by simp)
      rw [← heq.1] at hd
      exact absurd hd (by decide)
  | cons a t ih =>
    intro l3 l2 l4 h1 h3 heq
    cases l3 with
    | nil =>
      simp only [List.nil_append, List.cons_append, List.cons.injEq] at heq
      have hd := h1 a (by simp)
      rw [heq.1] at hd
      exact absurd hd (by decide)
    | cons c t3 =>
      simp only [List.cons_append, List.cons.injEq] at heq
      obtain ⟨hac, htl⟩ := heq
      obtain ⟨ht, hl⟩ := ih (fun d hd => h1 d (by simp [hd]))
        (fun d hd => h3 d (by simp [hd])) htl
      exact ⟨by rw [hac, ht], hl⟩

theorem sizeFileName_data (w h : Nat) :
    (sizeFileName w h).data
      = (Nat.repr w).data ++ 'x' :: ((Nat.repr h).data ++ ['.', 'p', 'n', 'g']) := by
  have ht : ∀ n : Nat, toString n = Nat.repr n := fun _ => rfl
  have hx : ("x" : String).data = ['x'] := rfl
  have hp : (".png" : String).data = ['.', 'p', 'n', 'g'] := rfl
  simp [sizeFileName, String.data_append, ht, hx, hp]

theorem sizeFileName_inj {w h w2 h2 : Nat}
    (heq : sizeFileName w h = sizeFileName w2 h2) : w = w2 ∧ h = h2 := by
  have hd := congrArg String.data heq
  rw [sizeFileName_data, sizeFileName_data] at hd
  obtain ⟨hw, hh⟩ := append_x_inj _ (repr_data_isDigit w) (repr_data_isDigit w2) hd
  refine ⟨nat_repr_inj (String.ext hw), nat_repr_inj (String.ext ?_)⟩
  exact List.append_cancel_right hh

theorem sizeFileName_ne_at2x (w h : Nat) : sizeFileName w h ≠ at2xName := by
  intro heq
  have hd := congrArg String.data heq
  rw [sizeFileName_data] at hd
  have h128 : at2xName.data
      = ['1', '2', '8'] ++ 'x' :: ['1', '2', '8', '@', '2', 'x', '.', 'p', 'n', 'g'] := by
    decide
  rw [h128] at hd
  have hdig : ∀ c ∈ (['1', '2', '8'] : List Char), c.isDigit = true := by decide
  obtain ⟨_, h2⟩ := append_x_inj _ (repr_data_isDigit w) hdig hd
  have hat : ('@' : Char) ∈ (Nat.repr h).data ++ ['.', 'p', 'n', 'g'] := by
    rw [h2]; decide
  rcases List.mem_append.mp hat with hin | hin
  · exact absurd (repr_data_isDigit h _ hin) (by decide)
  · exact absurd hin (by decide)

theorem sizeFileName_eq_src128 {w h : Nat} :
    sizeFileName w h = src128Name ↔ w = 128 ∧ h = 128 := by
  constructor
  · intro heq
    have h2 : sizeFileName w h = sizeFileName 128 128 := by
      rw [heq]; decide
    exact sizeFileName_inj h2
  · rintro ⟨rfl, rfl⟩
    decide

/-! File-system lemmas: how `openFile` interacts with `saveFile` and with
the script's `for` loop. -/

theorem openFile_saveFile (fs : FS) (n m : String) (img : Img) :
    openFile (saveFile fs n img) m = if m = n then some img else openFile fs m := by
  induction fs with
  | nil =>
    simp only [saveFile, openFile]
    by_cases h : n = m
    · subst h; simp
    · rw [if_neg h, if_neg (fun hh => h hh.symm)]
  | cons p rest ih =>
    obtain ⟨a, b⟩ := p
    simp only [saveFile]
    by_cases h : a = n
    · subst h
      simp only [if_pos rfl, openFile]
      by_cases h2 : a = m
      · subst h2; simp
      · rw [if_neg h2, if_neg (fun hh => h2 hh.symm), if_neg h2]
    · rw [if_neg h]
      simp only [openFile]
      by_cases h2 : a = m
      · subst h2
        simp [h]
      · rw [if_neg h2, if_neg h2, ih]

theorem saveFile_fresh (fs : FS) (n : String) (img : Img)
    (h : n ∉ fs.map Prod.fst) : saveFile fs n img = fs ++ [(n, img)] := by
  induction fs with
  | nil => rfl
  | cons p rest ih =>
    obtain ⟨a, b⟩ := p
    simp only [List.map_cons, List.mem_cons] at h
    push_neg at h
    simp only [saveFile, List.cons_append]
    rw [if_neg (fun hh => h.1 hh.symm), ih h.2]

theorem runLoop_out : ∀ (sizes : List (Nat × Nat)) (st : RunState),
    (runLoop sizes st).out = st.out := by
  intro sizes
  induction sizes with
  | nil => intro st; rfl
  | cons q rest ih => intro st; exact ih (saveIcon st q)

theorem runLoop_lookup_notmem :
    ∀ (sizes : List (Nat × Nat)) (st : RunState) (name : String),
      name ∉ sizes.map (fun p => sizeFileName p.1 p.2) →
      openFile (runLoop sizes st).fs name = openFile st.fs name := by
  intro sizes
  induction sizes with
  | nil => intro st name _; rfl
  | cons q rest ih =>
    intro st name h
    simp only [List.map_cons, List.mem_cons] at h
    push_neg at h
    show openFile (runLoop rest (saveIcon st q)).fs name = _
    rw [ih (saveIcon st q) name h.2]
    show openFile (saveFile st.fs (sizeFileName q.1 q.2) (makeIcon q.1 q.2)) name = _
    rw [openFile_saveFile, if_neg h.1]

theorem runLoop_lookup_mem :
    ∀ (sizes : List (Nat × Nat)) (st : RunState) (p : Nat × Nat),
      p ∈ sizes →
      openFile (runLoop sizes st).fs (sizeFileName p.1 p.2)
        = some (makeIcon p.1 p.2) := by
  intro sizes
  induction sizes with
  | nil => intro st p hp; cases hp
  | cons q rest ih =>
    intro st p hp
    by_cases hr : p ∈ rest
    · exact ih (saveIcon st q) p hr
    · have hpq : p = q := by
        rcases List.mem_cons.mp hp with h | h
        · exact h
        · exact absurd h hr
      subst hpq
      have hnot : sizeFileName p.1 p.2 ∉ rest.map (fun r => sizeFileName r.1 r.2) := by
        intro hmem
        rcases List.mem_map.mp hmem with ⟨r, hrmem, hreq⟩
        obtain ⟨h1, h2⟩ := sizeFileName_inj hreq
        have : r = p := Prod.ext h1 h2
        exact hr (this ▸ hrmem)
      show openFile (runLoop rest (saveIcon st p)).fs (sizeFileName p.1 p.2) = _
      rw [runLoop_lookup_notmem rest (saveIcon st p) _ hnot]
      show openFile (saveFile st.fs (sizeFileName p.1 p.2) (makeIcon p.1 p.2))
          (sizeFileName p.1 p.2) = _
      rw [openFile_saveFile, if_pos rfl]

theorem map_fname_nodup {sizes : List (Nat × Nat)} (h : sizes.Nodup) :
    (sizes.map (fun p => sizeFileName p.1 p.2)).Nodup := by
  refine h.map ?_
  intro p q hpq
  obtain ⟨h1, h2⟩ := sizeFileName_inj hpq
  exact Prod.ext h1 h2

theorem runLoop_keys :
    ∀ (sizes : List (Nat × Nat)) (st : RunState),
      (sizes.map (fun p => sizeFileName p.1 p.2)).Nodup →
      (∀ p ∈ sizes, sizeFileName p.1 p.2 ∉ st.fs.map Prod.fst) →
      (runLoop sizes st).fs.map Prod.fst
        = st.fs.map Prod.fst ++ sizes.map (fun p => sizeFileName p.1 p.2) := by
  intro sizes
  induction sizes with
  | nil => intro st _ _; simp [runLoop]
  | cons q rest ih =>
    intro st hnd hfresh
    simp only [List.map_cons, List.nodup_cons] at hnd
    have hqfresh : sizeFileName q.1 q.2 ∉ st.fs.map Prod.fst :=
      hfresh q (List.mem_cons_self q rest)
    have hsave : (saveIcon st q).fs = st.fs ++ [(sizeFileName q.1 q.2, makeIcon q.1 q.2)] :=
      saveFile_fresh st.fs _ _ hqfresh
    have hrest : ∀ p ∈ rest, sizeFileName p.1 p.2 ∉ (saveIcon st q).fs.map Prod.fst := by
      intro p hp
      rw [hsave, List.map_append]
      intro hmem
      rcases List.mem_append.mp hmem with h1 | h1
      · exact hfresh p (List.mem_cons_of_mem q hp) h1
      · simp only [List.map_cons, List.map_nil, List.mem_singleton] at h1
        exact hnd.1 (h1 ▸ List.mem_map_of_mem (fun r => sizeFileName r.1 r.2) hp)
    show (runLoop rest (saveIcon st q)).fs.map Prod.fst = _
    rw [ih (saveIcon st q) hnd.2 hrest, hsave]
    simp [List.map_append]

/-! The claims. -/

/-- C1: the hardcoded size sequence is exactly `[(32, 32), (128, 128)]`; the
run writes, in sequence order, the file `{width}x{height}.png` for each pair
(then the duplicate), and each such file decodes to an image of exactly
those pixel dimensions. -/
theorem dimension_fidelity :
    icon_sizes = [(32, 32), (128, 128)]
    ∧ refRun.2 = none
    ∧ refRun.1.writeLog = [sizeFileName 32 32, sizeFileName 128 128, at2xName]
    ∧ sizeFileName 32 32 = "32x32.png"
    ∧ sizeFileName 128 128 = "128x128.png"
    ∧ openFile refRun.1.fs (sizeFileName 32 32) = some (makeIcon 32 32)
    ∧ (makeIcon 32 32).width = 32
    ∧ (makeIcon 32 32).height = 32
    ∧ openFile refRun.1.fs (sizeFileName 128 128) = some (makeIcon 128 128)
    ∧ (makeIcon 128 128).width = 128
    ∧ (makeIcon 128 128).height = 128 :=
  ⟨rfl, rfl, rfl, by decide, by decide, rfl, rfl, rfl, rfl, rfl, rfl⟩

/-- C2: each processed size draws exactly one filled ellipse — the loop body
is a single `drawEllipse` call — with bounding box
`[margin, margin, width - margin, height - margin]`, margin 4, inclusive
endpoints (the bounding-box edge pixels of the 32x32 icon carry the outline
color), fill `(70, 130, 180, 255)`, outline `(25, 25, 112, 255)`, on a
canvas whose every pixel starts as `(0, 0, 0, 0)`. -/
theorem ellipse_call_shape :
    margin = 4
    ∧ fillColor = ⟨70, 130, 180, 255⟩
    ∧ outlineColor = ⟨25, 25, 112, 255⟩
    ∧ transparent = ⟨0, 0, 0, 0⟩
    ∧ (∀ w h : Nat,
        makeIcon w h
          = drawEllipse (imageNew w h transparent) 4 4
              (Int.ofNat w - 4) (Int.ofNat h - 4) fillColor outlineColor)
    ∧ (∀ w h x y : Nat, (imageNew w h transparent).pix x y = ⟨0, 0, 0, 0⟩)
    ∧ (makeIcon 32 32).pix 4 16 = outlineColor
    ∧ (makeIcon 32 32).pix 28 16 = outlineColor
    ∧ (makeIcon 32 32).pix 16 4 = outlineColor
    ∧ (makeIcon 32 32).pix 16 28 = outlineColor := by
  refine ⟨rfl, rfl, rfl, rfl, fun w h => rfl, fun w h x y => rfl, ?_, ?_, ?_, ?_⟩ <;> decide

/-- C3: after the reference run, `128x128@2x.png` exists and its decoded
content is exactly that of `128x128.png`; the duplicate is produced by
re-saving the image opened from the on-disk file `128x128.png` (the final
file system is literally the post-loop file system plus that one save). -/
theorem duplication_equivalence :
    openFile refRun.1.fs at2xName = openFile refRun.1.fs src128Name
    ∧ openFile refRun.1.fs at2xName = some (makeIcon 128 128)
    ∧ openFile (runLoop icon_sizes initState).fs src128Name = some (makeIcon 128 128)
    ∧ refRun.1.fs
        = saveFile (runLoop icon_sizes initState).fs at2xName (makeIcon 128 128) :=
  ⟨rfl, rfl, rfl, rfl⟩

/-- C4: for any size sequence without a `(128, 128)` entry, running from a
fresh directory ends in the duplication step's file-not-found error, writes
no `128x128@2x.png`, prints nothing, and every per-size file written before
the failure remains written with its image. -/
theorem missing_128_not_found (sizes : List (Nat × Nat)) (h : (128, 128) ∉ sizes) :
    (runScript sizes initState).2 = some (RunError.fileNotFound src128Name)
    ∧ openFile (runScript sizes initState).1.fs at2xName = none
    ∧ (runScript sizes initState).1.out = ""
    ∧ ∀ p ∈ sizes, openFile (runScript sizes initState).1.fs (sizeFileName p.1 p.2)
        = some (makeIcon p.1 p.2) := by
  have hsrc : src128Name ∉ sizes.map (fun p => sizeFileName p.1 p.2) := by
    intro hmem
    rcases List.mem_map.mp hmem with ⟨r, hrmem, hreq⟩
    obtain ⟨h1, h2⟩ := sizeFileName_eq_src128.mp hreq
    have hr : r = ((128 : Nat), (128 : Nat)) := Prod.ext h1 h2
    exact h (hr ▸ hrmem)
  have hopen : openFile (runLoop sizes initState).fs src128Name = none := by
    rw [runLoop_lookup_notmem sizes initState src128Name hsrc]
    rfl
  have hrun : runScript sizes initState
      = (runLoop sizes initState, some (RunError.fileNotFound src128Name)) := by
    simp only [runScript, hopen]
  refine ⟨by rw [hrun], ?_, ?_, ?_⟩
  · rw [hrun]
    show openFile (runLoop sizes initState).fs at2xName = none
    have hat : at2xName ∉ sizes.map (fun p => sizeFileName p.1 p.2) := by
      intro hmem
      rcases List.mem_map.mp hmem with ⟨r, _, hreq⟩
      exact sizeFileName_ne_at2x r.1 r.2 hreq
    rw [runLoop_lookup_notmem sizes initState at2xName hat]
    rfl
  · rw [hrun]
    show (runLoop sizes initState).out = ""
    rw [runLoop_out]
    rfl
  · intro p hp
    rw [hrun]
    exact runLoop_lookup_mem sizes initState p hp

/-- Witness for C4 at the concrete sequence `[(32, 32)]`. -/
theorem missing_128_not_found_witness :
    ((128, 128) ∉ ([(32, 32)] : List (Nat × Nat)))
    ∧ (runScript [(32, 32)] initState).2 = some (RunError.fileNotFound src128Name)
    ∧ openFile (runScript [(32, 32)] initState).1.fs at2xName = none :=
  ⟨by decide, (missing_128_not_found [(32, 32)] (by decide)).1,
    (missing_128_not_found [(32, 32)] (by decide)).2.1⟩

/-- C5: in every produced non-duplicate icon (both entries of the hardcoded
size sequence; margin 4 leaves room in each), the four corner pixels have
alpha 0. -/
theorem corner_transparency :
    icon_sizes = [(32, 32), (128, 128)]
    ∧ ((makeIcon 32 32).pix 0 0).a = 0
    ∧ ((makeIcon 32 32).pix 31 0).a = 0
    ∧ ((makeIcon 32 32).pix 0 31).a = 0
    ∧ ((makeIcon 32 32).pix 31 31).a = 0
    ∧ ((makeIcon 128 128).pix 0 0).a = 0
    ∧ ((makeIcon 128 128).pix 127 0).a = 0
    ∧ ((makeIcon 128 128).pix 0 127).a = 0
    ∧ ((makeIcon 128 128).pix 127 127).a = 0 := by
  decide

/-- C6: for both hardcoded sizes the exact center pixel
`(width / 2, height / 2)` carries the fill color, and the center lies
strictly inside the drawn ellipse (it satisfies even the shrunk-by-one
ellipse test, so it is off the one-pixel outline stroke). -/
theorem center_fill_color :
    (makeIcon 32 32).pix (32 / 2) (32 / 2) = fillColor
    ∧ (makeIcon 128 128).pix (128 / 2) (128 / 2) = fillColor
    ∧ inEllipseB 5 5 27 27 16 16 = true
    ∧ inEllipseB 5 5 123 123 64 64 = true := by
  decide

/-- C7 (amended: the size pairs are pairwise distinct): a run over a
duplicate-free size sequence containing `(128, 128)`, from a fresh
directory, succeeds and leaves exactly the `N` per-size files plus the one
duplicate — `N + 1` distinct files and no others. -/
theorem file_count_nodup (sizes : List (Nat × Nat)) (hnd : sizes.Nodup)
    (hmem : (128, 128) ∈ sizes) :
    (runScript sizes initState).2 = none
    ∧ (runScript sizes initState).1.fs.map Prod.fst
        = sizes.map (fun p => sizeFileName p.1 p.2) ++ [at2xName]
    ∧ (runScript sizes initState).1.fs.length = sizes.length + 1
    ∧ ((runScript sizes initState).1.fs.map Prod.fst).Nodup := by
  have hname : sizeFileName 128 128 = src128Name := by decide
  have hopen : openFile (runLoop sizes initState).fs src128Name
      = some (makeIcon 128 128) := by
    rw [← hname]
    exact runLoop_lookup_mem sizes initState (128, 128) hmem
  have hkeys : (runLoop sizes initState).fs.map Prod.fst
      = sizes.map (fun p => sizeFileName p.1 p.2) := by
    have hbase := runLoop_keys sizes initState (map_fname_nodup hnd)
      (by intro p _; simp [initState])
    simpa [initState] using hbase
  have hat2x : at2xName ∉ (runLoop sizes initState).fs.map Prod.fst := by
    rw [hkeys]
    intro hmem2
    rcases List.mem_map.mp hmem2 with ⟨r, _, hreq⟩
    exact sizeFileName_ne_at2x r.1 r.2 hreq
  have hsave : saveFile (runLoop sizes initState).fs at2xName (makeIcon 128 128)
      = (runLoop sizes initState).fs ++ [(at2xName, makeIcon 128 128)] :=
    saveFile_fresh _ _ _ hat2x
  have hrun : runScript sizes initState
      = (⟨saveFile (runLoop sizes initState).fs at2xName (makeIcon 128 128),
          (runLoop sizes initState).writeLog ++ [at2xName],
          (runLoop sizes initState).out ++ doneMsg ++ "\n"⟩, none) := by
    simp only [runScript, hopen]
  have hmap : (runScript sizes initState).1.fs.map Prod.fst
      = sizes.map (fun p => sizeFileName p.1 p.2) ++ [at2xName] := by
    rw [hrun]
    show (saveFile (runLoop sizes initState).fs at2xName (makeIcon 128 128)).map Prod.fst = _
    rw [hsave, List.map_append, hkeys]
    rfl
  refine ⟨by rw [hrun], hmap, ?_, ?_⟩
  · have hlen := congrArg List.length hmap
    simp only [List.length_map, List.length_append, List.length_singleton] at hlen
    exact hlen
  · rw [hmap]
    refine (map_fname_nodup hnd).append (List.nodup_singleton _) ?_
    intro a hamem hasing
    rcases List.mem_map.mp hamem with ⟨r, _, hreq⟩
    rw [List.mem_singleton] at hasing
    exact sizeFileName_ne_at2x r.1 r.2 (hreq.trans hasing)

/-- Witness for C7 at the hardcoded sequence. -/
theorem file_count_nodup_witness :
    icon_sizes.Nodup
    ∧ (128, 128) ∈ icon_sizes
    ∧ (runScript icon_sizes initState).1.fs.length = icon_sizes.length + 1 :=
  ⟨by decide, by decide,
    (file_count_nodup icon_sizes (by decide) (by decide)).2.2.1⟩

/-- C7 counterexample: with the size sequence
`[(32, 32), (32, 32), (128, 128)]` — length 3, exactly one `(128, 128)`
entry — the run succeeds but leaves 3 distinct files, not `3 + 1`. -/
theorem file_count_counterexample :
    ((runScript [(32, 32), (32, 32), (128, 128)] initState).2 = none)
    ∧ ((runScript [(32, 32), (32, 32), (128, 128)] initState).1.fs.length = 3)
    ∧ ¬ ((runScript [(32, 32), (32, 32), (128, 128)] initState).1.fs.length
        = [(32, 32), (32, 32), (128, 128)].length + 1) := by
  decide

/-- C8: a second invocation in the directory left by the first overwrites
every file in place: it succeeds, prints the same single line, and leaves a
file system identical to the first run's — same three file names, same
decoded dimensions, same center-pixel colors. -/
theorem idempotent_overwrite :
    secondRun.1.fs = refRun.1.fs
    ∧ secondRun.2 = none
    ∧ secondRun.1.out = doneMsg ++ "\n"
    ∧ secondRun.1.fs.map Prod.fst = [sizeFileName 32 32, sizeFileName 128 128, at2xName]
    ∧ (openFile secondRun.1.fs (sizeFileName 32 32)).map Img.width = some 32
    ∧ (openFile secondRun.1.fs (sizeFileName 32 32)).map Img.height = some 32
    ∧ (openFile secondRun.1.fs src128Name).map Img.width = some 128
    ∧ (openFile secondRun.1.fs src128Name).map Img.height = some 128
    ∧ (openFile secondRun.1.fs at2xName).map Img.width = some 128
    ∧ (openFile secondRun.1.fs at2xName).map Img.height = some 128
    ∧ (openFile secondRun.1.fs (sizeFileName 32 32)).map (fun i => i.pix 16 16)
        = some fillColor
    ∧ (openFile secondRun.1.fs src128Name).map (fun i => i.pix 64 64) = some fillColor
    ∧ (openFile secondRun.1.fs at2xName).map (fun i => i.pix 64 64) = some fillColor := by
  refine ⟨rfl, rfl, rfl, rfl, rfl, rfl, rfl, rfl, rfl, rfl, ?_, ?_, ?_⟩ <;> decide

/-- C9: every pixel of a generated icon is one of exactly three values —
the transparent background, the fill, or the outline; the hard-edged
ellipse model produces no blended colors. -/
theorem three_color_palette (w h x y : Nat) :
    (makeIcon w h).pix x y = transparent
    ∨ (makeIcon w h).pix x y = fillColor
    ∨ (makeIcon w h).pix x y = outlineColor := by
  simp only [makeIcon, drawEllipse, imageNew]
  split
  · split
    · exact Or.inr (Or.inl rfl)
    · exact Or.inr (Or.inr rfl)
  · exact Or.inl rfl

/-- C10: a successful run's whole stdout is the single newline-terminated
line `Created placeholder icons`, printed after the duplication step — a
run whose duplication fails (empty size sequence) prints nothing. -/
theorem stdout_single_line :
    refRun.1.out = doneMsg ++ "\n"
    ∧ doneMsg = "Created placeholder icons"
    ∧ refRun.2 = none
    ∧ (runScript [] initState).1.out = ""
    ∧ (runScript [] initState).2 = some (RunError.fileNotFound src128Name) :=
  ⟨rfl, rfl, rfl, rfl, rfl⟩
